import Mathlib

/-!
# Verification of the hydrology processing engine (`backend/processing.py`)

A shallow embedding of the terrain-hydrology risk engine.  Python floats are
modelled by exact rationals (`ℚ`); `NaN` ("nodata") is modelled by `Option ℚ`
with `none` playing the role of `NaN`.  `np.round` and Python's builtin
`round` both round half to even, modelled by `npRound`.  Machine-sized Python
integers are unbounded, so `ℤ`/`ℕ` model them directly.
-/

namespace Hydro

/-- `np.clip(x, lo, hi)` on a scalar. -/
def clip {α : Type*} [LinearOrder α] (x lo hi : α) : α :=
  max lo (min x hi)

/-- Round half to even, the semantics of both `np.round` and Python's builtin
`round` on floats (banker's rounding), as exact rational arithmetic. -/
def npRound (x : ℚ) : ℤ :=
  if x + 1/2 = ((⌊x + 1/2⌋ : ℤ) : ℚ) ∧ Odd ⌊x + 1/2⌋ then ⌊x + 1/2⌋ - 1
  else ⌊x + 1/2⌋

/-- `round(x, d)` at `d` decimal places (Python), as exact rationals. -/
def roundTo (d : ℕ) (x : ℚ) : ℚ :=
  ((npRound (x * 10 ^ d) : ℚ)) / 10 ^ d

/-- `nan_to_num(x, nan=v)`: replace `NaN` by the given default. -/
def nanToNum (x : Option ℚ) (v : ℚ) : ℚ :=
  x.getD v

/-! ## `_normalize` (processing.py lines 60-72)

Min-max normalize the finite values of a grid to `[0,1]`, keeping `NaN`s.
The grid is flattened to a list of optional values.  `math.isclose(vmax, vmin)`
is modelled as exact equality (exact-real model of the float computation). -/

/-- `_normalize(values)`: `NaN` entries stay `NaN`; if there is no finite value
everything is `NaN`; if all finite values coincide they map to `0.0`; otherwise
each finite value `x` maps to `(x - vmin)/(vmax - vmin)`, clipped to `[0,1]`. -/
def normalize (values : List (Option ℚ)) : List (Option ℚ) :=
  let fin := values.filterMap id
  if fin.isEmpty then values.map (fun _ => none)
  else
    let vmin := fin.foldl min (fin.headD 0)
    let vmax := fin.foldl max (fin.headD 0)
    if vmax = vmin then values.map (Option.map (fun _ => 0))
    else values.map (Option.map (fun x => clip ((x - vmin) / (vmax - vmin)) 0 1))

/-! ## Risk model (processing.py lines 875-951, flood-screening mode)

Per-cell state of the fused grids after `acc_norm`, `slope_norm`, `soil_risk`
and `impervious_risk` have been computed.  `dem`/`acc` are the cell's DEM and
accumulation values (`none` = `NaN`), the remaining fields the per-cell values
of the corresponding factor grids. -/

structure RiskCell where
  dem : Option ℚ
  acc : Option ℚ
  acc_norm : Option ℚ
  slope_norm : Option ℚ
  soil_risk : Option ℚ
  impervious_risk : Option ℚ
deriving DecidableEq

/-- `acc_log = np.log1p(np.clip(acc_arr, 0.0, None)); acc_norm = _normalize(acc_log)`
(lines 881-882).  `log1p` is transcendental; it enters the model as an explicit
function parameter applied to `max acc 0`. -/
def accNormOf (log1p : ℚ → ℚ) (acc : List (Option ℚ)) : List (Option ℚ) :=
  normalize (acc.map (Option.map (fun v => log1p (max v 0))))

/-- `slope_norm = _normalize(np.clip(slope_deg, 0.0, 60.0))` (line 883). -/
def slopeNormOf (slope : List (Option ℚ)) : List (Option ℚ) :=
  normalize (slope.map (Option.map (fun v => clip v 0 60)))

/-- The flood-screening (`starkregen`) risk fusion at one cell
(processing.py lines 935-941):
`0.35*nan_to_num(acc_norm,0) + 0.25*nan_to_num(slope_norm,0)
 + 0.15*nan_to_num(soil_risk,0.5) + 0.15*nan_to_num(impervious_risk,0.35)
 + 0.10*rain_hist_proxy`. -/
def floodRiskNorm (rain_proxy : ℚ) (c : RiskCell) : ℚ :=
  0.35 * nanToNum c.acc_norm 0 + 0.25 * nanToNum c.slope_norm 0
    + 0.15 * nanToNum c.soil_risk 0.5 + 0.15 * nanToNum c.impervious_risk 0.35
    + 0.10 * rain_proxy

/-- `risk_score = np.clip(np.round(risk_norm * 100.0), 0.0, 100.0)` (line 942);
the same expression is used for the erosion branch at line 931. -/
def scoreFromNorm (rn : ℚ) : ℤ :=
  clip (npRound (rn * 100)) 0 100

/-- `valid_mask = np.isfinite(dem_arr) & np.isfinite(acc_arr)` (line 950). -/
def cellValid (c : RiskCell) : Bool :=
  c.dem.isSome && c.acc.isSome

/-- Per-cell risk score after `risk_score[~valid_mask] = np.nan` (line 951):
`NaN` (`none`) at invalid cells, the clipped rounded score at valid cells. -/
def riskScoreCell (rain_proxy : ℚ) (c : RiskCell) : Option ℤ :=
  if cellValid c then some (scoreFromNorm (floodRiskNorm rain_proxy c)) else none

/-- `_risk_class` thresholds (processing.py lines 220-227). -/
inductive RiskClass where
  | niedrig
  | mittel
  | hoch
  | sehr_hoch
deriving DecidableEq

/-- `_risk_class(score)`: `>=85 -> sehr_hoch`, `>=70 -> hoch`, `>=45 -> mittel`,
else `niedrig`. -/
def riskClass (score : ℚ) : RiskClass :=
  if 85 ≤ score then .sehr_hoch
  else if 70 ≤ score then .hoch
  else if 45 ≤ score then .mittel
  else .niedrig

/-- `class_distribution` (processing.py lines 1086-1088): count the risk class
of every score in `risk_score[valid_mask]`. -/
def classDistribution (scores : List ℚ) : ℕ × ℕ × ℕ × ℕ :=
  (scores.countP (fun s => decide (riskClass s = .niedrig)),
   scores.countP (fun s => decide (riskClass s = .mittel)),
   scores.countP (fun s => decide (riskClass s = .hoch)),
   scores.countP (fun s => decide (riskClass s = .sehr_hoch)))

/-- The valid-cell scores of a grid, as rationals
(`risk_score[valid_mask]` of the grid `g.map (riskScoreCell rain)`). -/
def validScores (rain_proxy : ℚ) (g : List RiskCell) : List ℚ :=
  ((g.map (riskScoreCell rain_proxy)).filterMap id).map (fun z : ℤ => (z : ℚ))

/-! ## `_scenario_summary` (processing.py lines 784-805)

Only the `mean_score` field matters for the claims.  The function receives the
multiset of `risk_norm` values at valid cells (`scenario_score[valid_mask]`
before scaling) and the scenario rainfall `rain_mm_per_h`. -/

/-- `scenario_score = np.clip(risk_norm * (rain/50), 0.0, 1.0) * 100.0`,
restricted to the valid cells. -/
def scenarioScoreVals (vals : List ℚ) (rain : ℚ) : List ℚ :=
  vals.map (fun v => clip (v * (rain / 50)) 0 1 * 100)

/-- `mean_score = int(round(float(np.mean(vals))))`, with the empty-mask branch
returning `0` (lines 788-794). -/
def scenarioMeanScore (vals : List ℚ) (rain : ℚ) : ℤ :=
  if vals.isEmpty then 0
  else npRound ((scenarioScoreVals vals rain).sum / (vals.length : ℚ))

/-! ## `_prepare_analysis_dem` (processing.py lines 350-403)

If `width*height` exceeds the cell budget the raster is resampled to
`max(256, int(dim / scale))` per axis with `scale = sqrt(cells / budget)`.
In exact real arithmetic `int(dim / sqrt(cells/budget))
  = ⌊sqrt(dim² * budget / cells)⌋ = Nat.sqrt (dim*dim*budget / cells)`
(floor of a real square root of a rational equals `Nat.sqrt` of the rational's
floor), which is how the scaled axis is expressed below. -/

/-- `MAX_ANALYSIS_CELLS` (processing.py line 42). -/
def MAX_ANALYSIS_CELLS : ℕ := 4000000

/-- `max(256, int(dim / scale))` for one axis, `cells` the input cell count. -/
def scaledDim (dim cells : ℕ) : ℕ :=
  max 256 (Nat.sqrt (dim * dim * MAX_ANALYSIS_CELLS / cells))

/-- The reported working dimensions of `_prepare_analysis_dem`. -/
structure PrepInfo where
  downsample_applied : Bool
  work_width : ℕ
  work_height : ℕ
deriving DecidableEq

/-- `_prepare_analysis_dem`: pass the raster through unchanged when within the
budget, otherwise downsample both axes by `scale` with a 256-pixel floor. -/
def prepareAnalysisDem (width height : ℕ) : PrepInfo :=
  if width * height ≤ MAX_ANALYSIS_CELLS then ⟨false, width, height⟩
  else ⟨true, scaledDim width (width * height), scaledDim height (width * height)⟩

/-! ## Output bounder (processing.py lines 406-445)

`_downsample_line_points`, `_reduce_feature_geometry` and
`_limit_output_features`.  Vertices are kept abstract (`α` with decidable
equality, for the `reduced[-1] != coords[-1]` comparison). -/

/-- `MAX_OUTPUT_FEATURES` (processing.py line 43). -/
def MAX_OUTPUT_FEATURES : ℕ := 4000

/-- `MAX_LINE_POINTS` (processing.py line 44). -/
def MAX_LINE_POINTS : ℕ := 80

/-- Python slice `coords[::step]` for `step ≥ 1`. -/
def everyNth {α : Type*} : List α → ℕ → List α
  | [], _ => []
  | a :: rest, step => a :: everyNth (rest.drop (step - 1)) step
termination_by l _ => l.length
decreasing_by
  simp
  exact Nat.lt_succ_of_le (Nat.sub_le _ _)

/-- A list whose length exceeds some bound is nonempty (used for Python's
`coords[0]`/`coords[-1]` indexing, which presupposes a nonempty list). -/
def neNilOfLenGt {α : Type*} {coords : List α} {m : ℕ} (h : ¬ coords.length ≤ m) :
    coords ≠ [] := by
  intro heq
  rw [heq] at h
  exact h (by simp)

/-- `reduced = coords[::step]` with `step = max(1, len(coords)//(max_points-1))`,
then `reduced.append(coords[-1])` when the stride missed the final vertex
(lines 412-415). -/
def strideWithLast {α : Type*} [DecidableEq α] (coords : List α) (max_points : ℕ)
    (last : α) : List α :=
  let reduced := everyNth coords (max 1 (coords.length / (max_points - 1)))
  if reduced.getLast? ≠ some last then reduced ++ [last] else reduced

/-- `_downsample_line_points(coords, max_points)` (lines 406-416): lines not
longer than the cap pass through; otherwise stride-sample, re-append the final
vertex when the stride missed it, and cut back to the cap while keeping the
final vertex (`reduced[:max_points-1] + [coords[-1]]`). -/
def downsampleLinePoints {α : Type*} [DecidableEq α] (coords : List α) (max_points : ℕ) :
    List α :=
  if h : coords.length ≤ max_points then coords
  else if max_points < 3 then [coords.head (neNilOfLenGt h), coords.getLast (neNilOfLenGt h)]
  else if max_points < (strideWithLast coords max_points (coords.getLast (neNilOfLenGt h))).length
  then
    (strideWithLast coords max_points (coords.getLast (neNilOfLenGt h))).take (max_points - 1)
      ++ [coords.getLast (neNilOfLenGt h)]
  else strideWithLast coords max_points (coords.getLast (neNilOfLenGt h))

/-- GeoJSON stream geometry as far as the output bounder inspects it. -/
inductive StreamGeom (α : Type*) where
  | lineString (coords : List α)
  | multiLineString (lines : List (List α))
  | other
deriving DecidableEq

/-- A stream feature: the `risk_score` property (`none` when absent, defaulted
to `0` by the sort key) and its geometry. -/
structure StreamFeature (α : Type*) where
  risk_score : Option ℚ
  geom : StreamGeom α
deriving DecidableEq

/-- `float((f.get("properties") or {}).get("risk_score", 0))` (line 441). -/
def featureSortKey {α : Type*} (f : StreamFeature α) : ℚ :=
  f.risk_score.getD 0

/-- The polylines a geometry carries. -/
def linesOf {α : Type*} : StreamGeom α → List (List α)
  | .lineString coords => [coords]
  | .multiLineString lines => lines
  | .other => []

/-- `_reduce_feature_geometry(feature, max_points_per_line)` (lines 419-432). -/
def reduceFeatureGeometry {α : Type*} [DecidableEq α] (f : StreamFeature α)
    (max_points_per_line : ℕ) : StreamFeature α :=
  { f with
    geom :=
      match f.geom with
      | .lineString coords => .lineString (downsampleLinePoints coords max_points_per_line)
      | .multiLineString lines =>
          .multiLineString (lines.map (fun l => downsampleLinePoints l max_points_per_line))
      | .other => .other }

/-- `_limit_output_features(features)` (lines 435-445): keep everything when at
most `MAX_OUTPUT_FEATURES` features, else the top `MAX_OUTPUT_FEATURES` by
risk score descending (`sorted(..., reverse=True)` is stable, matched by
`mergeSort` with the reversed comparison); always decimate each kept line. -/
def limitOutputFeatures {α : Type*} [DecidableEq α] (features : List (StreamFeature α)) :
    List (StreamFeature α) × Bool :=
  if features.length ≤ MAX_OUTPUT_FEATURES then
    (features.map (fun f => reduceFeatureGeometry f MAX_LINE_POINTS), false)
  else
    let ranked := features.mergeSort (fun a b => decide (featureSortKey b ≤ featureSortKey a))
    ((ranked.take MAX_OUTPUT_FEATURES).map (fun f => reduceFeatureGeometry f MAX_LINE_POINTS),
      true)

/-! ## Hotspot selection (processing.py lines 494-669)

`_build_hotspots` and `_build_ponding_hotspots`.  A cell is `(row, col, value)`
where `value` is the finite risk score (terrain) or the positive fill depth
(ponding); the input list enumerates `np.argwhere(mask)` in row-major order
with the corresponding values.  The emitted hotspot records keep only the
pixel position and the score; coordinate transforms, reasons, upstream areas
and remediation measures do not influence selection and are omitted. -/

structure HotCell where
  row : ℕ
  col : ℕ
  score : ℚ
deriving DecidableEq

/-- `(row_i - prev_row)**2 + (col_i - prev_col)**2`. -/
def sqDist (a b : HotCell) : ℤ :=
  ((a.row : ℤ) - (b.row : ℤ)) ^ 2 + ((a.col : ℤ) - (b.col : ℤ)) ^ 2

/-- `order = np.argsort(values)[::-1]`: a stable ascending sort, reversed. -/
def hotspotOrder (cells : List HotCell) : List HotCell :=
  (cells.mergeSort (fun a b => decide (a.score ≤ b.score))).reverse

/-- The greedy non-maximum-suppression loop shared by both hotspot builders:
walk the ordered candidates, skip any cell strictly closer than `min_dist_px`
(squared comparison) to an already selected cell, and stop once `top_n` cells
are selected.  `acc` holds the selection in reverse order. -/
def greedySelect (min_dist_px top_n : ℕ) : List HotCell → List HotCell → List HotCell
  | [], acc => acc.reverse
  | c :: rest, acc =>
      if acc.any (fun p => decide (sqDist c p < (min_dist_px : ℤ) ^ 2)) then
        greedySelect min_dist_px top_n rest acc
      else if top_n ≤ acc.length + 1 then (c :: acc).reverse
      else greedySelect min_dist_px top_n rest (c :: acc)

/-- `_build_hotspots` (lines 494-585): `min_dist_px = 25`, candidates ordered
by risk score descending. -/
def buildHotspots (cells : List HotCell) (top_n : ℕ) : List HotCell :=
  greedySelect 25 top_n (hotspotOrder cells) []

/-- `np.nanpercentile(xs, q)` with linear interpolation on the sorted sample. -/
def percentile (q : ℚ) (xs : List ℚ) : ℚ :=
  let s := xs.mergeSort (fun a b => decide (a ≤ b))
  match s with
  | [] => 0
  | _ :: _ =>
      let pos := q / 100 * ((s.length : ℚ) - 1)
      let i := (⌊pos⌋).toNat
      let frac := pos - (⌊pos⌋ : ℚ)
      match s.get? (i + 1) with
      | some hi => s.getD i 0 + frac * (hi - s.getD i 0)
      | none => s.getD (s.length - 1) 0

/-- The ponding score denominator (lines 609-611): the 95th-percentile depth,
falling back to the maximum depth when the percentile is not positive. -/
def pondingP95 (depths : List ℚ) : ℚ :=
  if percentile 95 depths ≤ 0 then depths.foldr max 0 else percentile 95 depths

/-- `_build_ponding_hotspots` (lines 588-669): candidates are the cells with
finite positive fill depth, ordered by depth descending, `min_dist_px = 28`;
each selected cell is scored `clip(depth / p95 * 100, 0, 100)` against
`pondingP95` of the depths; no hotspot is emitted when that is not positive. -/
def buildPondingHotspots (cells : List HotCell) (top_n : ℕ) : List HotCell :=
  let pos := cells.filter (fun c => decide (0 < c.score))
  if pos.isEmpty then []
  else if pondingP95 (pos.map (fun c => c.score)) ≤ 0 then []
  else
    (greedySelect 28 top_n (hotspotOrder pos) []).map
      (fun c => ⟨c.row, c.col, clip (c.score / pondingP95 (pos.map (fun c => c.score)) * 100) 0 100⟩)

/-- `analyze_dem` lines 1043-1066: terrain hotspots, then (outside erosion
mode) the ponding hotspots appended — with re-issued ranks but with no
cross-list distance check. -/
def analysisHotspots (risk_cells ponding_cells : List HotCell) (erosion : Bool) :
    List HotCell :=
  let hs := buildHotspots risk_cells 8
  if erosion then hs else hs ++ buildPondingHotspots ponding_cells 4

/-! ## Catchment delineation (processing.py lines 1149-1274) -/

/-- A polygonized catchment feature: its exterior ring. -/
structure CatchFeature where
  ring : List (ℚ × ℚ)
deriving DecidableEq

/-- The sort key of the largest-polygon selection (line 1260) calls
`_signedRingAreaLonLat`, a name that is defined nowhere in the repository, so
evaluating the key raises `NameError`; the computation therefore aborts with
an exception for every feature. -/
def signedRingAreaLonLat (_ring : List (ℚ × ℚ)) : Except String ℚ :=
  .error "NameError: name _signedRingAreaLonLat is not defined"

/-- Shoelace signed ring area.  Modelled from the spec: `only the ring with
maximum absolute signed area is retained` — the helper the source meant to
call but never defines. -/
def shoelaceArea (ring : List (ℚ × ℚ)) : ℚ :=
  (List.zipWith (fun p q => p.1 * q.2 - q.1 * p.2) ring (ring.drop 1 ++ ring.take 1)).sum / 2

/-- The `try` block at lines 1255-1265: when more than one polygon came out of
polygonization, sort by absolute ring area descending and keep the head — but
the key computation raises (`signedRingAreaLonLat`), and `except Exception:
pass` leaves the feature list unchanged. -/
def keepLargestFeature (feats : List CatchFeature) : List CatchFeature :=
  if 1 < feats.length then
    match feats.mapM (fun f => (signedRingAreaLonLat f.ring).map (fun a => (|a|, f))) with
    | .ok keyed =>
        ((keyed.mergeSort (fun a b => decide (b.1 ≤ a.1))).map (fun kf => kf.2)).take 1
    | .error _ => feats
  else feats

/-- Modelled from the spec: `keep only the one with greatest absolute ring
area` — the selection as specified, with a working area key. -/
def specKeepLargestFeature (feats : List CatchFeature) : List CatchFeature :=
  if 1 < feats.length then
    ((feats.mergeSort (fun a b => decide (|shoelaceArea b.ring| ≤ |shoelaceArea a.ring|))).take 1)
  else feats

/-- `catch_mask & (aoi_mask == 1)` (line 1229): optional AOI clip of the
upstream mask before the empty check.  Masks are flattened boolean grids. -/
def finalCatchMask (catch_mask : List Bool) (aoi_mask : Option (List Bool)) : List Bool :=
  match aoi_mask with
  | some am => catch_mask.zipWith (fun a b => a && b) am
  | none => catch_mask

/-- The `meta` block of `delineate_catchment_dem` (lines 1267-1274). -/
structure CatchMeta where
  area_m2 : ℤ
  area_ha : ℚ
  area_km2 : ℚ
deriving DecidableEq

/-- `delineate_catchment_dem` after flow routing: abort on a CRS-less DEM
(line 1187), clip the upstream mask by the AOI (line 1229), abort when the
final mask is empty (lines 1233-1234), otherwise report
`area_m2 = int(round(count * pixel_area))`, `area_ha = round(area/1e4, 3)`,
`area_km2 = round(area/1e6, 3)`. -/
def delineateCatchment (src_crs : Option String) (catch_mask : List Bool)
    (aoi_mask : Option (List Bool)) (pixel_area_m2 : ℚ) : Except String CatchMeta :=
  if src_crs.isNone then .error "DEM hat kein CRS."
  else
    let n := (finalCatchMask catch_mask aoi_mask).countP id
    if n = 0 then
      .error "Kein Einzugsgebiet gefunden (Punkt evtl. ausserhalb der Auswahl oder auf NoData)."
    else
      let area : ℚ := (n : ℚ) * pixel_area_m2
      .ok ⟨npRound area, roundTo 3 (area / 10000), roundTo 3 (area / 1000000)⟩

/-! ## CRS handling in `analyze_dem` (processing.py lines 835-838, 975-978)

`src_crs = str(src.crs) if src.crs else None`; later the reprojection step
runs only under `if src_crs:` — a missing CRS is not an error, the analysis
continues and returns the un-reprojected network. -/

/-- The reprojection step of `analyze_dem`: reproject when a CRS exists, pass
the branches through untouched otherwise.  Either way the invocation
continues normally (`Except.ok`). -/
def analyzeCrsStep {β : Type*} (src_crs : Option String) (reproject : String → β → β)
    (branches : β) : Except String β :=
  match src_crs with
  | some c => .ok (reproject c branches)
  | none => .ok branches

/-- The corresponding check in `delineate_catchment_dem` (lines 1186-1187),
which does abort. -/
def delineateCrsCheck (src_crs : Option String) : Except String Unit :=
  if src_crs.isSome then .ok () else .error "DEM hat kein CRS."

/-! ## Scenario list selection (processing.py lines 902-917) -/

/-- The fallback scenario list `[30, 50, 100]` (line 902). -/
def defaultScenarios : List ℤ := [30, 50, 100]

/-- `sorted({int(round(float(v))) for v in s if np.isfinite(float(v)) and
float(v) > 0})` then `vals[:3]`, defaulting when nothing survives or no list
was given.  Entries are `Option ℚ` with `none` modelling a non-finite float;
`sorted(set(...))` is `Finset.sort`. -/
def scenarioList (weather : Option (List (Option ℚ))) : List ℤ :=
  match weather with
  | none => defaultScenarios
  | some s =>
      let vals :=
        ((((s.filterMap id).filter (fun v => decide (0 < v))).map npRound).toFinset).sort (· ≤ ·)
      if vals.isEmpty then defaultScenarios else vals.take 3

/-! ## Concrete inputs used by counterexamples and witnesses -/

/-- Two disjoint polygon rings (a unit square and a 3x3 square). -/
def demoCatchFeats : List CatchFeature :=
  [⟨[(0, 0), (1, 0), (1, 1), (0, 1), (0, 0)]⟩,
   ⟨[(2, 0), (5, 0), (5, 3), (2, 3), (2, 0)]⟩]

/-- A risk grid with a single finite cell at pixel `(0,0)`. -/
def demoRiskCells : List HotCell := [⟨0, 0, 50⟩]

/-- A one-feature stream network over abstract vertices. -/
def demoStreamFeats : List (StreamFeature ℕ) := [⟨some 50, .lineString [0, 1, 2]⟩]

/-- A valid risk cell (finite DEM and accumulation). -/
def demoValidCell : RiskCell :=
  ⟨some 100, some 5, some (1/2), some (1/2), some (1/2), some (1/2)⟩

/-- An invalid risk cell (`NaN` DEM). -/
def demoInvalidCell : RiskCell := ⟨none, some 1, none, none, none, none⟩

/-- A ponding-depth grid with a single positive-depth cell at pixel `(0,0)`. -/
def demoPondCells : List HotCell := [⟨0, 0, 1⟩]

/-! ## Basic lemmas about `clip` and `npRound` -/

theorem le_clip {α : Type*} [LinearOrder α] (x lo hi : α) : lo ≤ clip x lo hi :=
  le_max_left _ _

theorem clip_le {α : Type*} [LinearOrder α] {lo hi : α} (x : α) (h : lo ≤ hi) :
    clip x lo hi ≤ hi :=
  max_le h (min_le_right _ _)

theorem clip_mono {α : Type*} [LinearOrder α] {a b : α} (lo hi : α) (h : a ≤ b) :
    clip a lo hi ≤ clip b lo hi :=
  max_le_max le_rfl (min_le_min h le_rfl)

theorem clip_of_mem {α : Type*} [LinearOrder α] {x lo hi : α} (h1 : lo ≤ x) (h2 : x ≤ hi) :
    clip x lo hi = x := by
  unfold clip
  rw [min_eq_left h2, max_eq_right h1]

theorem clip_of_le {α : Type*} [LinearOrder α] {x lo hi : α} (h1 : x ≤ lo) (h2 : lo ≤ hi) :
    clip x lo hi = lo := by
  unfold clip
  rw [min_eq_left (h1.trans h2), max_eq_left h1]

theorem clip_of_ge {α : Type*} [LinearOrder α] {x lo hi : α} (h1 : hi ≤ x) (h2 : lo ≤ hi) :
    clip x lo hi = hi := by
  unfold clip
  rw [min_eq_right h1, max_eq_right h2]

theorem npRound_intCast (n : ℤ) : npRound (n : ℚ) = n := by
  unfold npRound
  have hfl : ⌊(n : ℚ) + 1/2⌋ = n := by
    rw [Int.floor_eq_iff]
    constructor
    · linarith
    · linarith
  rw [if_neg]
  · exact hfl
  · rw [hfl]
    rintro ⟨h, -⟩
    have : (1 : ℚ)/2 = 0 := by linarith
    norm_num at this

theorem npRound_mono {x y : ℚ} (h : x ≤ y) : npRound x ≤ npRound y := by
  unfold npRound
  have hf : ⌊x + 1/2⌋ ≤ ⌊y + 1/2⌋ := Int.floor_mono (by linarith)
  by_cases hx : x + 1/2 = ((⌊x + 1/2⌋ : ℤ) : ℚ) ∧ Odd ⌊x + 1/2⌋
  · rw [if_pos hx]
    by_cases hy : y + 1/2 = ((⌊y + 1/2⌋ : ℤ) : ℚ) ∧ Odd ⌊y + 1/2⌋
    · rw [if_pos hy]
      omega
    · rw [if_neg hy]
      omega
  · rw [if_neg hx]
    by_cases hy : y + 1/2 = ((⌊y + 1/2⌋ : ℤ) : ℚ) ∧ Odd ⌊y + 1/2⌋
    · rw [if_pos hy]
      rcases eq_or_lt_of_le hf with heq | hlt
      · exfalso
        apply hx
        have h1 : ((⌊x + 1/2⌋ : ℤ) : ℚ) ≤ x + 1/2 := Int.floor_le _
        have h3 : ((⌊y + 1/2⌋ : ℤ) : ℚ) = ((⌊x + 1/2⌋ : ℤ) : ℚ) := by
          exact_mod_cast heq.symm
        have h2 : x + 1/2 = ((⌊x + 1/2⌋ : ℤ) : ℚ) := by
          have h4 := hy.1
          rw [h3] at h4
          linarith
        exact ⟨h2, heq ▸ hy.2⟩
      · omega
    · rw [if_neg hy]
      exact hf

theorem abs_npRound_sub_le (x : ℚ) : |(npRound x : ℚ) - x| ≤ 1/2 := by
  unfold npRound
  have h1 : ((⌊x + 1/2⌋ : ℤ) : ℚ) ≤ x + 1/2 := Int.floor_le _
  have h2 : x + 1/2 < ((⌊x + 1/2⌋ : ℤ) : ℚ) + 1 := Int.lt_floor_add_one _
  by_cases hx : x + 1/2 = ((⌊x + 1/2⌋ : ℤ) : ℚ) ∧ Odd ⌊x + 1/2⌋
  · rw [if_pos hx, abs_le]
    constructor <;> push_cast <;> linarith [hx.1]
  · rw [if_neg hx, abs_le]
    constructor <;> linarith

theorem npRound_clip100 (x : ℚ) :
    clip (npRound x) 0 100 = npRound (clip x 0 100) := by
  have h0 : npRound (0 : ℚ) = 0 := by
    have := npRound_intCast 0
    simpa using this
  have h100 : npRound (100 : ℚ) = 100 := by
    have := npRound_intCast 100
    simpa using this
  rcases le_total x 0 with hle | hge
  · rw [clip_of_le hle (by norm_num), h0]
    have hr : npRound x ≤ 0 := h0 ▸ npRound_mono hle
    exact clip_of_le hr (by norm_num)
  · rcases le_total 100 x with hge2 | hle2
    · rw [clip_of_ge hge2 (by norm_num), h100]
      have hr : 100 ≤ npRound x := h100 ▸ npRound_mono hge2
      exact clip_of_ge hr (by norm_num)
    · rw [clip_of_mem hge hle2]
      have hr0 : 0 ≤ npRound x := h0 ▸ npRound_mono hge
      have hr1 : npRound x ≤ 100 := h100 ▸ npRound_mono hle2
      exact clip_of_mem hr0 hr1

/-! ## C2: `_prepare_analysis_dem` budget and floor -/

/-- C2, counterexample: a degenerate 4000001x1 raster exceeds the budget, so
downsampling runs; the height is floored up to 256 while the width stays near
4000000, and the resulting cell count (4000000*256) far exceeds
`MAX_ANALYSIS_CELLS` — the claimed budget guarantee fails. -/
theorem C2_budget_counterexample :
    ¬ ((prepareAnalysisDem 4000001 1).work_width * (prepareAnalysisDem 4000001 1).work_height
        ≤ MAX_ANALYSIS_CELLS) := by
  have hgt : ¬ (4000001 * 1 ≤ MAX_ANALYSIS_CELLS) := by norm_num [MAX_ANALYSIS_CELLS]
  have harg1 : 4000001 * 4000001 * MAX_ANALYSIS_CELLS / (4000001 * 1) = 16000004000000 := by
    norm_num [MAX_ANALYSIS_CELLS]
  have hs1 : Nat.sqrt 16000004000000 = 4000000 := by
    have hlo : 4000000 ≤ Nat.sqrt 16000004000000 := Nat.le_sqrt.mpr (by norm_num)
    have hhi : Nat.sqrt 16000004000000 < 4000001 := Nat.sqrt_lt.mpr (by norm_num)
    omega
  have harg2 : 1 * 1 * MAX_ANALYSIS_CELLS / (4000001 * 1) = 0 := by
    norm_num [MAX_ANALYSIS_CELLS]
  have hval : prepareAnalysisDem 4000001 1 = ⟨true, 4000000, 256⟩ := by
    unfold prepareAnalysisDem scaledDim
    rw [if_neg hgt, harg1, harg2, hs1, Nat.sqrt_zero]
    have hmax1 : 256 ⊔ 4000000 = 4000000 := by omega
    have hmax2 : 256 ⊔ 0 = 256 := by omega
    rw [hmax1, hmax2]
  rw [hval]
  norm_num [MAX_ANALYSIS_CELLS]

/-- C2 (amended): a downsampled raster never has an axis below the 256-pixel
floor, and its cell count stays within `MAX_ANALYSIS_CELLS` whenever the floor
does not engage on either axis (when the floor engages, the budget can be
exceeded, as the counterexample shows). -/
theorem C2_prepare_dem_budget (w h : ℕ) (hover : MAX_ANALYSIS_CELLS < w * h) :
    256 ≤ (prepareAnalysisDem w h).work_width ∧
    256 ≤ (prepareAnalysisDem w h).work_height ∧
    (256 ≤ Nat.sqrt (w * w * MAX_ANALYSIS_CELLS / (w * h)) →
      256 ≤ Nat.sqrt (h * h * MAX_ANALYSIS_CELLS / (w * h)) →
      (prepareAnalysisDem w h).work_width * (prepareAnalysisDem w h).work_height
        ≤ MAX_ANALYSIS_CELLS) := by
  have hne : ¬ (w * h ≤ MAX_ANALYSIS_CELLS) := not_le.mpr hover
  unfold prepareAnalysisDem scaledDim
  rw [if_neg hne]
  refine ⟨le_max_left _ _, le_max_left _ _, ?_⟩
  intro hw hh
  simp only
  rw [max_eq_right hw, max_eq_right hh]
  have hc : 0 < w * h := lt_trans (by norm_num [MAX_ANALYSIS_CELLS]) hover
  have ha : Nat.sqrt (w * w * MAX_ANALYSIS_CELLS / (w * h)) *
      Nat.sqrt (w * w * MAX_ANALYSIS_CELLS / (w * h)) ≤ w * w * MAX_ANALYSIS_CELLS / (w * h) := by
    have := Nat.sqrt_le' (w * w * MAX_ANALYSIS_CELLS / (w * h))
    simpa [pow_two] using this
  have hb : Nat.sqrt (h * h * MAX_ANALYSIS_CELLS / (w * h)) *
      Nat.sqrt (h * h * MAX_ANALYSIS_CELLS / (w * h)) ≤ h * h * MAX_ANALYSIS_CELLS / (w * h) := by
    have := Nat.sqrt_le' (h * h * MAX_ANALYSIS_CELLS / (w * h))
    simpa [pow_two] using this
  have hac : (w * w * MAX_ANALYSIS_CELLS / (w * h)) * (w * h) ≤ w * w * MAX_ANALYSIS_CELLS :=
    Nat.div_mul_le_self _ _
  have hbc : (h * h * MAX_ANALYSIS_CELLS / (w * h)) * (w * h) ≤ h * h * MAX_ANALYSIS_CELLS :=
    Nat.div_mul_le_self _ _
  set sa := Nat.sqrt (w * w * MAX_ANALYSIS_CELLS / (w * h)) with hsa
  set sb := Nat.sqrt (h * h * MAX_ANALYSIS_CELLS / (w * h)) with hsb
  have key : (sa * sb) * (sa * sb) * ((w * h) * (w * h)) ≤
      (MAX_ANALYSIS_CELLS * MAX_ANALYSIS_CELLS) * ((w * h) * (w * h)) := by
    calc (sa * sb) * (sa * sb) * ((w * h) * (w * h))
        = (sa * sa * (w * h)) * (sb * sb * (w * h)) := by ring
      _ ≤ ((w * w * MAX_ANALYSIS_CELLS / (w * h)) * (w * h)) *
            ((h * h * MAX_ANALYSIS_CELLS / (w * h)) * (w * h)) :=
          Nat.mul_le_mul (Nat.mul_le_mul_right _ ha) (Nat.mul_le_mul_right _ hb)
      _ ≤ (w * w * MAX_ANALYSIS_CELLS) * (h * h * MAX_ANALYSIS_CELLS) :=
          Nat.mul_le_mul hac hbc
      _ = (MAX_ANALYSIS_CELLS * MAX_ANALYSIS_CELLS) * ((w * h) * (w * h)) := by ring
  have key2 : (sa * sb) * (sa * sb) ≤ MAX_ANALYSIS_CELLS * MAX_ANALYSIS_CELLS :=
    Nat.le_of_mul_le_mul_right key (by positivity)
  nlinarith [key2]

/-- C2 witness: a 4000x2000 raster exceeds the budget; both scaled axes stay
above the floor and the resulting cell count respects the budget. -/
theorem C2_prepare_dem_budget_witness :
    256 ≤ (prepareAnalysisDem 4000 2000).work_width ∧
    (prepareAnalysisDem 4000 2000).work_width * (prepareAnalysisDem 4000 2000).work_height
      ≤ MAX_ANALYSIS_CELLS := by
  have hover : MAX_ANALYSIS_CELLS < 4000 * 2000 := by norm_num [MAX_ANALYSIS_CELLS]
  obtain ⟨h1, _h2, h3⟩ := C2_prepare_dem_budget 4000 2000 hover
  have e1 : 4000 * 4000 * MAX_ANALYSIS_CELLS / (4000 * 2000) = 8000000 := by
    norm_num [MAX_ANALYSIS_CELLS]
  have e2 : 2000 * 2000 * MAX_ANALYSIS_CELLS / (4000 * 2000) = 2000000 := by
    norm_num [MAX_ANALYSIS_CELLS]
  have hw : 256 ≤ Nat.sqrt (4000 * 4000 * MAX_ANALYSIS_CELLS / (4000 * 2000)) := by
    rw [e1]
    exact Nat.le_sqrt.mpr (by norm_num)
  have hh : 256 ≤ Nat.sqrt (2000 * 2000 * MAX_ANALYSIS_CELLS / (4000 * 2000)) := by
    rw [e2]
    exact Nat.le_sqrt.mpr (by norm_num)
  exact ⟨h1, h3 hw hh⟩

/-! ## Risk model lemmas (C5, C6, C7) -/

theorem countP_class_sum (vals : List ℚ) :
    vals.countP (fun s => decide (riskClass s = .niedrig))
      + vals.countP (fun s => decide (riskClass s = .mittel))
      + vals.countP (fun s => decide (riskClass s = .hoch))
      + vals.countP (fun s => decide (riskClass s = .sehr_hoch)) = vals.length := by
  induction vals with
  | nil => rfl
  | cons v vs ih =>
      simp only [List.countP_cons, List.length_cons]
      cases h : riskClass v <;> simp [h] <;> omega

theorem length_filterMap_scores (rain : ℚ) (g : List RiskCell) :
    (g.filterMap (riskScoreCell rain)).length = g.countP cellValid := by
  induction g with
  | nil => rfl
  | cons c cs ih =>
      rw [List.filterMap_cons, List.countP_cons]
      by_cases h : cellValid c = true
      · simp [riskScoreCell, h, ih]
      · simp [riskScoreCell, h, ih]

theorem length_validScores (rain : ℚ) (g : List RiskCell) :
    (validScores rain g).length = g.countP cellValid := by
  unfold validScores
  rw [List.length_map, List.filterMap_map, Function.id_comp]
  exact length_filterMap_scores rain g

theorem normalize_mem_unitInterval (values : List (Option ℚ)) (v : ℚ)
    (hm : some v ∈ normalize values) : 0 ≤ v ∧ v ≤ 1 := by
  simp only [normalize] at hm
  by_cases h1 : (values.filterMap id).isEmpty
  · rw [if_pos h1] at hm
    simp at hm
  · rw [if_neg h1] at hm
    by_cases h2 :
        (values.filterMap id).foldl max ((values.filterMap id).headD 0) =
          (values.filterMap id).foldl min ((values.filterMap id).headD 0)
    · rw [if_pos h2] at hm
      simp only [List.mem_map] at hm
      obtain ⟨o, -, ho⟩ := hm
      rw [Option.map_eq_some'] at ho
      obtain ⟨x, -, hx⟩ := ho
      rw [← hx]
      norm_num
    · rw [if_neg h2] at hm
      simp only [List.mem_map] at hm
      obtain ⟨o, -, ho⟩ := hm
      rw [Option.map_eq_some'] at ho
      obtain ⟨x, -, hx⟩ := ho
      rw [← hx]
      exact ⟨le_clip _ _ _, clip_le _ (by norm_num)⟩

/-- C5 (confirmed): at every valid cell the risk score is defined and lies in
`[0,100]`; at every invalid cell it is `NaN`; the four `class_distribution`
counts sum exactly to the number of valid cells. -/
theorem C5_score_bounds_and_class_sum (rain : ℚ) (g : List RiskCell) :
    (∀ c ∈ g, cellValid c = true →
      ∃ s : ℤ, riskScoreCell rain c = some s ∧ 0 ≤ s ∧ s ≤ 100) ∧
    (∀ c ∈ g, cellValid c = false → riskScoreCell rain c = none) ∧
    ((classDistribution (validScores rain g)).1
      + (classDistribution (validScores rain g)).2.1
      + (classDistribution (validScores rain g)).2.2.1
      + (classDistribution (validScores rain g)).2.2.2 = g.countP cellValid) := by
  refine ⟨?_, ?_, ?_⟩
  · intro c _ hv
    refine ⟨scoreFromNorm (floodRiskNorm rain c), ?_, ?_, ?_⟩
    · simp [riskScoreCell, hv]
    · exact le_clip _ _ _
    · exact clip_le _ (by norm_num)
  · intro c _ hv
    simp [riskScoreCell, hv]
  · have h1 := countP_class_sum (validScores rain g)
    have h2 := length_validScores rain g
    simpa [classDistribution] using h1.trans h2

/-- C5 witness: on a two-cell grid (one valid, one `NaN`-DEM cell) the valid
cell gets a score in `[0,100]` and the invalid one gets `NaN`. -/
theorem C5_score_bounds_witness :
    (∃ s : ℤ, riskScoreCell 0.6 demoValidCell = some s ∧ 0 ≤ s ∧ s ≤ 100) ∧
    riskScoreCell 0.6 demoInvalidCell = none := by
  obtain ⟨h1, h2, -⟩ :=
    C5_score_bounds_and_class_sum 0.6 [demoValidCell, demoInvalidCell]
  exact ⟨h1 demoValidCell (by simp) rfl, h2 demoInvalidCell (by simp) rfl⟩

/-- C6 (confirmed): in flood-screening mode the risk at a cell whose factor
grids are all finite is exactly
`0.35*acc_norm + 0.25*slope_norm + 0.15*soil_risk + 0.15*impervious_risk
 + 0.10*rain_proxy`; the integer score at every valid cell equals
`round(clip(risk*100, 0, 100))` (the code's `clip(round(...))` commutes); and
the min-max normalization used for `acc_norm` (log1p of clipped accumulation)
and `slope_norm` (slope clipped to `[0,60]`) only produces values in `[0,1]`. -/
theorem C6_flood_risk_formula (d a : Option ℚ) (an sn so im rain : ℚ) :
    (floodRiskNorm rain ⟨d, a, some an, some sn, some so, some im⟩ =
      0.35 * an + 0.25 * sn + 0.15 * so + 0.15 * im + 0.10 * rain) ∧
    (∀ c : RiskCell, cellValid c = true →
      riskScoreCell rain c = some (npRound (clip (floodRiskNorm rain c * 100) 0 100))) ∧
    (∀ (log1p : ℚ → ℚ) (acc : List (Option ℚ)) (v : ℚ),
      some v ∈ accNormOf log1p acc → 0 ≤ v ∧ v ≤ 1) ∧
    (∀ (slope : List (Option ℚ)) (v : ℚ),
      some v ∈ slopeNormOf slope → 0 ≤ v ∧ v ≤ 1) := by
  refine ⟨by simp [floodRiskNorm, nanToNum], ?_, ?_, ?_⟩
  · intro c hv
    simp [riskScoreCell, hv, scoreFromNorm, npRound_clip100]
  · intro log1p acc v hm
    exact normalize_mem_unitInterval _ v hm
  · intro slope v hm
    exact normalize_mem_unitInterval _ v hm

/-- C6 witness: the score identity at a concrete valid cell, and the
normalization range on the concrete slope grid `[0°, 60°]`. -/
theorem C6_flood_risk_formula_witness :
    riskScoreCell 0.6 demoValidCell =
      some (npRound (clip (floodRiskNorm 0.6 demoValidCell * 100) 0 100)) ∧
    (0 ≤ (1 : ℚ) ∧ (1 : ℚ) ≤ 1) := by
  obtain ⟨-, h2, -, h4⟩ :=
    C6_flood_risk_formula (some 100) (some 5) (1/2) (1/2) (1/2) (1/2) 0.6
  refine ⟨h2 demoValidCell rfl, h4 [some 0, some 60] 1 ?_⟩
  have hfm : List.filterMap id [some (0 : ℚ), some 60] = [0, 60] := rfl
  norm_num [slopeNormOf, normalize, hfm, List.foldl, List.headD, clip, max_def, min_def]

/-- C7 (confirmed): for a fixed risk surface (the `risk_norm` values at the
valid cells, which the model keeps nonnegative) the scenario `mean_score` is
monotonically non-decreasing in `rain_mm_per_h`. -/
theorem C7_scenario_mean_monotone (vals : List ℚ) (r1 r2 : ℚ)
    (hnn : ∀ v ∈ vals, 0 ≤ v) (h12 : r1 ≤ r2) :
    scenarioMeanScore vals r1 ≤ scenarioMeanScore vals r2 := by
  unfold scenarioMeanScore
  by_cases he : vals.isEmpty
  · simp [he]
  · rw [if_neg he, if_neg he]
    apply npRound_mono
    apply div_le_div_of_nonneg_right ?_ (Nat.cast_nonneg _)
    unfold scenarioScoreVals
    apply List.sum_le_sum
    intro v hv
    have hv0 := hnn v hv
    have hmul : v * (r1 / 50) ≤ v * (r2 / 50) := by
      apply mul_le_mul_of_nonneg_left _ hv0
      linarith
    exact mul_le_mul_of_nonneg_right (clip_mono 0 1 hmul) (by norm_num)

/-- C7 witness: on the one-cell surface `[1/2]`, the 30 mm/h scenario mean is
at most the 50 mm/h scenario mean. -/
theorem C7_scenario_mean_monotone_witness :
    scenarioMeanScore [1/2] 30 ≤ scenarioMeanScore [1/2] 50 := by
  apply C7_scenario_mean_monotone [1/2] 30 50
  · intro v hv
    rw [List.mem_singleton] at hv
    rw [hv]
    norm_num
  · norm_num

/-! ## Hotspot lemmas (C3) -/

theorem sqDist_comm (a b : HotCell) : sqDist a b = sqDist b a := by
  unfold sqDist
  ring

theorem pairwise_reverse_of_symm {R : HotCell → HotCell → Prop}
    (hsymm : ∀ a b, R a b → R b a) {l : List HotCell} (h : l.Pairwise R) :
    l.reverse.Pairwise R := by
  rw [List.pairwise_reverse]
  exact h.imp (fun hab => hsymm _ _ hab)

theorem greedySelect_eq_append (m n : ℕ) (l : List HotCell) :
    ∀ acc : List HotCell,
      ∃ s, s.Sublist l ∧ greedySelect m n l acc = acc.reverse ++ s := by
  induction l with
  | nil =>
      intro acc
      exact ⟨[], List.nil_sublist _, by simp [greedySelect]⟩
  | cons c rest ih =>
      intro acc
      by_cases h1 : (acc.any fun p => decide (sqDist c p < (m : ℤ) ^ 2)) = true
      · obtain ⟨s, hs, he⟩ := ih acc
        exact ⟨s, hs.cons c, by simp [greedySelect, h1, he]⟩
      · by_cases h2 : n ≤ acc.length + 1
        · refine ⟨[c], List.cons_sublist_cons.mpr (List.nil_sublist rest), ?_⟩
          simp [greedySelect, h1, h2]
        · obtain ⟨s, hs, he⟩ := ih (c :: acc)
          refine ⟨c :: s, List.cons_sublist_cons.mpr hs, ?_⟩
          simp only [greedySelect, h1, h2, if_false, if_neg, he, List.reverse_cons]
          simp [he]

theorem greedySelect_pairwise (m n : ℕ) (l : List HotCell) :
    ∀ acc : List HotCell, acc.Pairwise (fun a b => (m : ℤ) ^ 2 ≤ sqDist a b) →
      (greedySelect m n l acc).Pairwise (fun a b => (m : ℤ) ^ 2 ≤ sqDist a b) := by
  have hsymm : ∀ a b : HotCell, (m : ℤ) ^ 2 ≤ sqDist a b → (m : ℤ) ^ 2 ≤ sqDist b a := by
    intro a b hab
    rwa [sqDist_comm]
  induction l with
  | nil =>
      intro acc hacc
      simpa [greedySelect] using pairwise_reverse_of_symm hsymm hacc
  | cons c rest ih =>
      intro acc hacc
      by_cases h1 : (acc.any fun p => decide (sqDist c p < (m : ℤ) ^ 2)) = true
      · simp only [greedySelect, h1, if_true]
        exact ih acc hacc
      · have hfar : ∀ p ∈ acc, (m : ℤ) ^ 2 ≤ sqDist c p := by
          intro p hp
          by_contra hcon
          push_neg at hcon
          exact h1 (List.any_eq_true.mpr ⟨p, hp, decide_eq_true hcon⟩)
        have hacc' : (c :: acc).Pairwise (fun a b => (m : ℤ) ^ 2 ≤ sqDist a b) :=
          List.pairwise_cons.mpr ⟨hfar, hacc⟩
        by_cases h2 : n ≤ acc.length + 1
        · simp only [greedySelect, h1, h2, if_false, if_true, if_neg, if_pos]
          exact pairwise_reverse_of_symm hsymm hacc'
        · simp only [greedySelect, h1, h2, if_false, if_neg]
          exact ih (c :: acc) hacc'

theorem greedySelect_length_le (m n : ℕ) (l : List HotCell) :
    ∀ acc : List HotCell, acc.length < n → (greedySelect m n l acc).length ≤ n := by
  induction l with
  | nil =>
      intro acc hacc
      simpa [greedySelect] using hacc.le
  | cons c rest ih =>
      intro acc hacc
      by_cases h1 : (acc.any fun p => decide (sqDist c p < (m : ℤ) ^ 2)) = true
      · simp only [greedySelect, h1, if_true]
        exact ih acc hacc
      · by_cases h2 : n ≤ acc.length + 1
        · have : greedySelect m n (c :: rest) acc = (c :: acc).reverse := by
            simp [greedySelect, h1, h2]
          rw [this, List.length_reverse, List.length_cons]
          omega
        · simp only [greedySelect, h1, h2, if_false, if_neg]
          exact ih (c :: acc) (by simp only [List.length_cons]; omega)

theorem hotspotOrder_sorted (cells : List HotCell) :
    (hotspotOrder cells).Pairwise (fun a b => b.score ≤ a.score) := by
  unfold hotspotOrder
  rw [List.pairwise_reverse]
  have hs := @List.sorted_mergeSort HotCell
    (fun a b : HotCell => decide (a.score ≤ b.score))
    (fun a b c hab hbc => by
      simp only [decide_eq_true_eq] at hab hbc ⊢
      exact hab.trans hbc)
    (fun a b => by
      simp only [Bool.or_eq_true, decide_eq_true_eq]
      exact le_total a.score b.score)
    cells
  exact hs.imp (fun h => by simpa using h)

theorem buildPondingHotspots_pairwise (pond : List HotCell) (n : ℕ) :
    (buildPondingHotspots pond n).Pairwise (fun a b => (28 : ℤ) ^ 2 ≤ sqDist a b) := by
  simp only [buildPondingHotspots]
  split
  · exact List.Pairwise.nil
  · split
    · exact List.Pairwise.nil
    · rw [List.pairwise_map]
      exact (greedySelect_pairwise 28 n _ [] List.Pairwise.nil).imp
        (fun hab => by simpa [sqDist] using hab)

/-- C3 (amended): within one builder the greedy suppression invariant holds —
any two terrain hotspots are at squared pixel distance at least `25²`, any
two ponding hotspots at least `28²` — at most 8 terrain hotspots are
accepted, and the terrain hotspots are accepted in descending risk-score
order.  No separation is enforced between a terrain and a ponding hotspot
(see the counterexample). -/
theorem C3_hotspot_separation (risk pond : List HotCell) :
    (buildHotspots risk 8).Pairwise (fun a b => (25 : ℤ) ^ 2 ≤ sqDist a b) ∧
    (buildPondingHotspots pond 4).Pairwise (fun a b => (28 : ℤ) ^ 2 ≤ sqDist a b) ∧
    (buildHotspots risk 8).length ≤ 8 ∧
    (buildHotspots risk 8).Pairwise (fun a b => b.score ≤ a.score) := by
  refine ⟨?_, ?_, ?_, ?_⟩
  · exact greedySelect_pairwise 25 8 _ [] List.Pairwise.nil
  · exact buildPondingHotspots_pairwise pond 4
  · exact greedySelect_length_le 25 8 _ [] (by norm_num)
  · obtain ⟨s, hs, he⟩ := greedySelect_eq_append 25 8 (hotspotOrder risk) []
    unfold buildHotspots
    rw [he]
    simpa using (hotspotOrder_sorted risk).sublist hs

/-- C3, counterexample: in one flood-mode invocation the terrain selection
picks pixel `(0,0)` and the ponding selection independently picks the same
pixel `(0,0)`; the combined hotspot list of the invocation contains two
hotspots at squared distance `0 < 25²`, violating the cross-list reading of
the non-overlap claim. -/
theorem C3_combined_counterexample :
    ¬ (analysisHotspots demoRiskCells demoPondCells false).Pairwise
        (fun a b => (25 : ℤ) ^ 2 ≤ sqDist a b) := by
  have hterrain : buildHotspots demoRiskCells 8 = [⟨0, 0, 50⟩] := by
    norm_num [buildHotspots, demoRiskCells, hotspotOrder, List.mergeSort_singleton,
      greedySelect]
  have hpos : demoPondCells.filter (fun c => decide (0 < c.score)) = demoPondCells := by
    norm_num [demoPondCells]
  have hperc : percentile 95 [1] = 1 := by
    norm_num [percentile, List.mergeSort_singleton]
  have hp95 : pondingP95 [1] = 1 := by
    norm_num [pondingP95, hperc]
  have hpond : buildPondingHotspots demoPondCells 4 = [⟨0, 0, 100⟩] := by
    simp only [buildPondingHotspots, hpos]
    norm_num [demoPondCells, hp95, hotspotOrder, List.mergeSort_singleton, greedySelect,
      clip, max_def, min_def]
  have hcomb : analysisHotspots demoRiskCells demoPondCells false =
      [⟨0, 0, 50⟩, ⟨0, 0, 100⟩] := by
    simp [analysisHotspots, hterrain, hpond]
  rw [hcomb]
  intro hp
  rw [List.pairwise_cons] at hp
  have := hp.1 ⟨0, 0, 100⟩ (by simp)
  norm_num [sqDist] at this

/-! ## Output-bounder lemmas (C8) -/

theorem everyNth_head? {α : Type*} (l : List α) (s : ℕ) :
    (everyNth l s).head? = l.head? := by
  cases l with
  | nil => simp [everyNth]
  | cons a rest => simp [everyNth]

theorem strideWithLast_getLast? {α : Type*} [DecidableEq α] (coords : List α) (m : ℕ)
    (last : α) : (strideWithLast coords m last).getLast? = some last := by
  simp only [strideWithLast]
  by_cases hc : (everyNth coords (max 1 (coords.length / (m - 1)))).getLast? ≠ some last
  · rw [if_pos hc, List.getLast?_concat]
  · rw [if_neg hc]
    exact not_not.mp hc

theorem strideWithLast_head? {α : Type*} [DecidableEq α] (coords : List α) (m : ℕ)
    (last : α) (hne : coords ≠ []) :
    (strideWithLast coords m last).head? = coords.head? := by
  rcases coords with - | ⟨a, as⟩
  · exact absurd rfl hne
  · simp only [strideWithLast]
    have he : everyNth (a :: as) (max 1 ((a :: as).length / (m - 1))) =
        a :: everyNth (as.drop (max 1 ((a :: as).length / (m - 1)) - 1))
          (max 1 ((a :: as).length / (m - 1))) := by
      simp [everyNth]
    rw [he]
    by_cases hc : (a :: everyNth (as.drop (max 1 ((a :: as).length / (m - 1)) - 1))
        (max 1 ((a :: as).length / (m - 1)))).getLast? ≠ some last
    · rw [if_pos hc]
      rfl
    · rw [if_neg hc]
      rfl

theorem downsampleLinePoints_head? {α : Type*} [DecidableEq α] (coords : List α) (m : ℕ) :
    (downsampleLinePoints coords m).head? = coords.head? := by
  unfold downsampleLinePoints
  by_cases h1 : coords.length ≤ m
  · rw [dif_pos h1]
  · rw [dif_neg h1]
    have hne := neNilOfLenGt h1
    by_cases h2 : m < 3
    · rw [if_pos h2]
      simp [List.head?_eq_head hne]
    · rw [if_neg h2]
      by_cases h3 : m <
          (strideWithLast coords m (coords.getLast (neNilOfLenGt h1))).length
      · rw [if_pos h3]
        have hsw := strideWithLast_head? coords m (coords.getLast (neNilOfLenGt h1)) hne
        rcases hsw' : strideWithLast coords m (coords.getLast (neNilOfLenGt h1)) with - | ⟨b, bs⟩
        · rw [hsw'] at h3
          simp at h3
        · rw [hsw'] at hsw
          have hm1 : m - 1 = (m - 2) + 1 := by omega
          rw [hm1, List.take_succ_cons]
          simpa using hsw
      · rw [if_neg h3]
        exact strideWithLast_head? coords m _ hne

theorem downsampleLinePoints_getLast? {α : Type*} [DecidableEq α] (coords : List α)
    (m : ℕ) : (downsampleLinePoints coords m).getLast? = coords.getLast? := by
  unfold downsampleLinePoints
  by_cases h1 : coords.length ≤ m
  · rw [dif_pos h1]
  · rw [dif_neg h1]
    have hne := neNilOfLenGt h1
    have hlast : coords.getLast? = some (coords.getLast hne) :=
      List.getLast?_eq_getLast coords hne
    by_cases h2 : m < 3
    · rw [if_pos h2, hlast]
      simp
    · rw [if_neg h2]
      by_cases h3 : m <
          (strideWithLast coords m (coords.getLast (neNilOfLenGt h1))).length
      · rw [if_pos h3, List.getLast?_concat, hlast]
      · rw [if_neg h3, strideWithLast_getLast?, hlast]

theorem downsampleLinePoints_length_le {α : Type*} [DecidableEq α] (coords : List α)
    (m : ℕ) (hm : 3 ≤ m) : (downsampleLinePoints coords m).length ≤ m := by
  unfold downsampleLinePoints
  by_cases h1 : coords.length ≤ m
  · rw [dif_pos h1]
    exact h1
  · rw [dif_neg h1, if_neg (by omega : ¬ m < 3)]
    by_cases h3 : m < (strideWithLast coords m (coords.getLast (neNilOfLenGt h1))).length
    · rw [if_pos h3, List.length_append, List.length_take]
      simp only [List.length_singleton]
      omega
    · rw [if_neg h3]
      omega

theorem linesOf_reduceFeatureGeometry {α : Type*} [DecidableEq α] (f : StreamFeature α)
    (m : ℕ) :
    linesOf (reduceFeatureGeometry f m).geom =
      (linesOf f.geom).map (fun l => downsampleLinePoints l m) := by
  rcases f with ⟨rs, g⟩
  cases g <;> rfl

theorem mem_limitOutputFeatures_lines {α : Type*} [DecidableEq α]
    {fs : List (StreamFeature α)} {f : StreamFeature α}
    (hf : f ∈ (limitOutputFeatures fs).1) :
    ∀ l ∈ linesOf f.geom, l.length ≤ MAX_LINE_POINTS := by
  have hmap : ∃ f0, f = reduceFeatureGeometry f0 MAX_LINE_POINTS := by
    unfold limitOutputFeatures at hf
    by_cases hc : fs.length ≤ MAX_OUTPUT_FEATURES
    · rw [if_pos hc] at hf
      obtain ⟨f0, -, he⟩ := List.mem_map.mp hf
      exact ⟨f0, he.symm⟩
    · rw [if_neg hc] at hf
      obtain ⟨f0, -, he⟩ := List.mem_map.mp hf
      exact ⟨f0, he.symm⟩
  obtain ⟨f0, rfl⟩ := hmap
  intro l hl
  rw [linesOf_reduceFeatureGeometry] at hl
  obtain ⟨l0, -, he⟩ := List.mem_map.mp hl
  rw [← he]
  exact downsampleLinePoints_length_le l0 MAX_LINE_POINTS (by norm_num [MAX_LINE_POINTS])

/-- C8 (confirmed): the output bounder emits at most `MAX_OUTPUT_FEATURES`
(4000) features; every line of every emitted feature has at most
`MAX_LINE_POINTS` (80) vertices whether or not truncation occurred; the kept
features are a top segment by risk score descending (every kept feature's key
is at least every dropped feature's key); and line decimation always preserves
the first and last vertex exactly. -/
theorem C8_output_bounder {α : Type*} [DecidableEq α] (fs : List (StreamFeature α)) :
    (limitOutputFeatures fs).1.length ≤ MAX_OUTPUT_FEATURES ∧
    (∀ f ∈ (limitOutputFeatures fs).1, ∀ l ∈ linesOf f.geom, l.length ≤ MAX_LINE_POINTS) ∧
    (∃ kept dropped : List (StreamFeature α),
      (kept ++ dropped).Perm fs ∧
      (limitOutputFeatures fs).1 =
        kept.map (fun f => reduceFeatureGeometry f MAX_LINE_POINTS) ∧
      (∀ f ∈ kept, ∀ g ∈ dropped, featureSortKey g ≤ featureSortKey f)) ∧
    (∀ coords : List α,
      (downsampleLinePoints coords MAX_LINE_POINTS).head? = coords.head? ∧
      (downsampleLinePoints coords MAX_LINE_POINTS).getLast? = coords.getLast?) := by
  refine ⟨?_, fun f hf => mem_limitOutputFeatures_lines hf, ?_,
    fun coords => ⟨downsampleLinePoints_head? coords _, downsampleLinePoints_getLast? coords _⟩⟩
  · unfold limitOutputFeatures
    by_cases hc : fs.length ≤ MAX_OUTPUT_FEATURES
    · rw [if_pos hc]
      simpa using hc
    · rw [if_neg hc]
      simp only [List.length_map]
      exact (List.length_take_le _ _).trans le_rfl
  · unfold limitOutputFeatures
    by_cases hc : fs.length ≤ MAX_OUTPUT_FEATURES
    · rw [if_pos hc]
      exact ⟨fs, [], by simp, rfl, by simp⟩
    · rw [if_neg hc]
      refine ⟨(fs.mergeSort fun a b => decide (featureSortKey b ≤ featureSortKey a)).take
          MAX_OUTPUT_FEATURES,
        (fs.mergeSort fun a b => decide (featureSortKey b ≤ featureSortKey a)).drop
          MAX_OUTPUT_FEATURES, ?_, rfl, ?_⟩
      · rw [List.take_append_drop]
        exact List.mergeSort_perm fs _
      · have hsorted := @List.sorted_mergeSort (StreamFeature α)
          (fun a b : StreamFeature α => decide (featureSortKey b ≤ featureSortKey a))
          (fun a b c hab hbc => by
            simp only [decide_eq_true_eq] at hab hbc ⊢
            exact hbc.trans hab)
          (fun a b => by
            simp only [Bool.or_eq_true, decide_eq_true_eq]
            exact le_total (featureSortKey b) (featureSortKey a))
          fs
        have hsplit := (List.take_append_drop MAX_OUTPUT_FEATURES
          (fs.mergeSort fun a b => decide (featureSortKey b ≤ featureSortKey a))).symm
        rw [hsplit] at hsorted
        have := (List.pairwise_append.mp hsorted).2.2
        intro f hf g hg
        simpa using this f hf g hg

/-- C8 witness: on a one-feature network the output keeps the 3-vertex line
within the caps and decimation fixes its endpoints. -/
theorem C8_output_bounder_witness :
    ([0, 1, 2] : List ℕ).length ≤ MAX_LINE_POINTS ∧
    (downsampleLinePoints ([0, 1, 2] : List ℕ) MAX_LINE_POINTS).head? = some 0 := by
  obtain ⟨-, h2, -, h4⟩ := C8_output_bounder demoStreamFeats
  constructor
  · refine h2 ⟨some 50, .lineString [0, 1, 2]⟩ ?_ [0, 1, 2] ?_
    · have : limitOutputFeatures demoStreamFeats =
          ([⟨some 50, .lineString [0, 1, 2]⟩], false) := by
        norm_num [limitOutputFeatures, demoStreamFeats, MAX_OUTPUT_FEATURES,
          reduceFeatureGeometry, downsampleLinePoints, MAX_LINE_POINTS]
      rw [this]
      simp
    · simp [linesOf]
  · have := (h4 [0, 1, 2]).1
    simpa using this

/-! ## Catchment largest-polygon selection (C1) and CRS handling (C4) -/

/-- C1 (code bug), evaluation at the failing input: the mask polygonizes into
two disjoint polygons; the sort key raises `NameError` (the helper
`_signedRingAreaLonLat` is defined nowhere in the repository), the bare
`except Exception: pass` swallows it, and both polygons are returned instead
of exactly one.  The spec-modelled selection (`specKeepLargestFeature`) keeps
exactly the 3x3 square, the ring of greatest absolute area. -/
theorem C1_keep_largest_polygon_bug :
    keepLargestFeature demoCatchFeats = demoCatchFeats ∧
    (keepLargestFeature demoCatchFeats).length ≠ 1 ∧
    specKeepLargestFeature demoCatchFeats = [⟨[(2, 0), (5, 0), (5, 3), (2, 3), (2, 0)]⟩] := by
  have h1 : keepLargestFeature demoCatchFeats = demoCatchFeats := rfl
  refine ⟨h1, ?_, ?_⟩
  · rw [h1]
    norm_num [demoCatchFeats]
  · have hk : (fun a b : CatchFeature =>
        decide (|shoelaceArea b.ring| ≤ |shoelaceArea a.ring|))
        ⟨[(0, 0), (1, 0), (1, 1), (0, 1), (0, 0)]⟩
        ⟨[(2, 0), (5, 0), (5, 3), (2, 3), (2, 0)]⟩ = false := by
      norm_num [shoelaceArea]
    norm_num [specKeepLargestFeature, demoCatchFeats, List.mergeSort, List.merge, hk]
    rw [if_neg]
    · rfl
    · norm_num [shoelaceArea]

/-- C4, counterexample: a network-analysis invocation on a CRS-less raster
does not abort — the reprojection step is skipped and the ungeoreferenced
branches are returned as a successful result, with no caller-permission
mechanism involved. -/
theorem C4_no_crs_counterexample :
    analyzeCrsStep (β := ℕ) none (fun _ b => b) 0 = .ok 0 := rfl

/-- C4 (amended): `analyze_dem` never aborts on a missing CRS (it skips
reprojection and unconditionally propagates the ungeoreferenced result),
while `delineate_catchment_dem` aborts exactly when the CRS is missing. -/
theorem C4_crs_handling {β : Type*} (reproject : String → β → β) (b : β)
    (crs : Option String) :
    analyzeCrsStep none reproject b = .ok b ∧
    (analyzeCrsStep crs reproject b).isOk = true ∧
    ((delineateCrsCheck crs).isOk = true ↔ crs.isSome = true) := by
  refine ⟨rfl, ?_, ?_⟩
  · cases crs <;> rfl
  · cases crs <;> simp [delineateCrsCheck, Except.isOk, Except.toBool]

/-! ## Catchment area metrics (C9) -/

/-- C9 (confirmed): given a CRS, `delineate_catchment_dem` raises exactly when
the (optionally AOI-clipped) upstream mask is empty; on success the reported
`area_m2` equals `cell_count * pixel_area_m2` up to the integer rounding
(within 1/2 m²) and `area_km2` equals `cell_count * pixel_area_m2 / 1e6` up to
its 3-decimal rounding (within 1/2000 km²). -/
theorem C9_catchment_empty_iff_and_area (crs : Option String) (mask : List Bool)
    (aoi : Option (List Bool)) (pa : ℚ) (hcrs : crs.isSome = true) :
    ((∃ e, delineateCatchment crs mask aoi pa = .error e) ↔
      (finalCatchMask mask aoi).countP id = 0) ∧
    (∀ meta, delineateCatchment crs mask aoi pa = .ok meta →
      |(meta.area_m2 : ℚ) - ((finalCatchMask mask aoi).countP id : ℚ) * pa| ≤ 1/2 ∧
      |meta.area_km2 - ((finalCatchMask mask aoi).countP id : ℚ) * pa / 1000000| ≤ 1/2000) := by
  have hnone : ¬ crs.isNone = true := by
    cases crs
    · simp at hcrs
    · simp
  unfold delineateCatchment
  rw [if_neg hnone]
  by_cases hn : (finalCatchMask mask aoi).countP id = 0
  · rw [if_pos hn]
    refine ⟨by simp [hn], ?_⟩
    intro meta hmeta
    simp at hmeta
  · rw [if_neg hn]
    refine ⟨by simp [hn], ?_⟩
    intro meta hmeta
    rw [Except.ok.injEq] at hmeta
    rw [← hmeta]
    constructor
    · exact abs_npRound_sub_le _
    · unfold roundTo
      have h := abs_npRound_sub_le (((finalCatchMask mask aoi).countP id : ℚ) * pa
        / 1000000 * 10 ^ 3)
      have heq : ((npRound (((finalCatchMask mask aoi).countP id : ℚ) * pa / 1000000
            * 10 ^ 3) : ℚ)) / 10 ^ 3
          - ((finalCatchMask mask aoi).countP id : ℚ) * pa / 1000000 =
          ((npRound (((finalCatchMask mask aoi).countP id : ℚ) * pa / 1000000 * 10 ^ 3) : ℚ)
            - ((finalCatchMask mask aoi).countP id : ℚ) * pa / 1000000 * 10 ^ 3) / 10 ^ 3 := by
        ring
      rw [heq, abs_div]
      have habs : |((10 : ℚ) ^ 3)| = 10 ^ 3 := by norm_num
      rw [habs]
      linarith

/-- C9 witness: a one-true-cell mask with unit pixel area yields a successful
result whose area metrics are within the rounding tolerances. -/
theorem C9_catchment_witness :
    (¬ ∃ e, delineateCatchment (some "EPSG:25832") [true] none 1 = .error e) ∧
    (∃ meta, delineateCatchment (some "EPSG:25832") [true] none 1 = .ok meta ∧
      |(meta.area_m2 : ℚ) - ((finalCatchMask [true] none).countP id : ℚ) * 1| ≤ 1/2) := by
  obtain ⟨h1, h2⟩ := C9_catchment_empty_iff_and_area (some "EPSG:25832") [true] none 1 rfl
  constructor
  · intro hex
    have := h1.mp hex
    norm_num [finalCatchMask] at this
  · have hev : delineateCatchment (some "EPSG:25832") [true] none 1 =
        .ok ⟨npRound ((((finalCatchMask [true] none).countP id : ℚ)) * 1),
          roundTo 3 ((((finalCatchMask [true] none).countP id : ℚ)) * 1 / 10000),
          roundTo 3 ((((finalCatchMask [true] none).countP id : ℚ)) * 1 / 1000000)⟩ := by
      norm_num [delineateCatchment, finalCatchMask]
    exact ⟨_, hev, (h2 _ hev).1⟩

/-! ## Scenario list selection (C10) -/

/-- C10 (confirmed): the scenario list actually used is the deduplicated
ascending-sorted list of the rounded positive finite entries, truncated to the
3 smallest (strictly sorted, hence duplicate-free; any surviving rounded value
not in the used list is at least every used value); when nothing survives the
filter, or no list is supplied, the default `[30, 50, 100]` is used. -/
theorem C10_scenario_list (s : List (Option ℚ)) :
    List.Sorted (· < ·) (scenarioList (some s)) ∧
    (scenarioList (some s)).length ≤ 3 ∧
    scenarioList none = defaultScenarios ∧
    ((s.filterMap id).filter (fun v => decide (0 < v)) = [] →
      scenarioList (some s) = defaultScenarios) ∧
    ((s.filterMap id).filter (fun v => decide (0 < v)) ≠ [] →
      ∀ x ∈ scenarioList (some s),
        (∃ v ∈ s.filterMap id, 0 < v ∧ npRound v = x) ∧
        (∀ v ∈ s.filterMap id, 0 < v → x ≤ npRound v ∨ npRound v ∈ scenarioList (some s))) := by
  refine ⟨?_, ?_, rfl, ?_, ?_⟩
  · simp only [scenarioList]
    split
    · decide
    · exact ((Finset.sort_sorted_lt _).sublist (List.take_sublist _ _))
  · simp only [scenarioList]
    split
    · decide
    · exact (List.length_take_le _ _).trans le_rfl
  · intro hempty
    simp only [scenarioList, hempty]
    simp [Finset.sort_empty]
  · intro hne x hx
    have hout : scenarioList (some s) =
        ((((s.filterMap id).filter (fun v => decide (0 < v))).map npRound).toFinset.sort
          (· ≤ ·)).take 3 := by
      simp only [scenarioList]
      rw [if_neg]
      rw [List.isEmpty_iff]
      intro hsort
      rcases List.exists_mem_of_ne_nil _ hne with ⟨v, hv⟩
      have hmem : npRound v ∈ ((((s.filterMap id).filter
          (fun w => decide (0 < w))).map npRound).toFinset.sort (· ≤ ·)) := by
        rw [Finset.mem_sort (α := ℤ) (· ≤ ·), List.mem_toFinset]
        exact List.mem_map_of_mem _ hv
      rw [hsort] at hmem
      exact absurd hmem (List.not_mem_nil _)
    rw [hout] at hx
    have hxvals := List.mem_of_mem_take hx
    have hxT : x ∈ ((s.filterMap id).filter (fun v => decide (0 < v))).map npRound := by
      rw [← List.mem_toFinset, ← Finset.mem_sort (α := ℤ) (· ≤ ·)]
      exact hxvals
    constructor
    · obtain ⟨v, hvmem, hvx⟩ := List.mem_map.mp hxT
      rw [List.mem_filter] at hvmem
      exact ⟨v, hvmem.1, by simpa using hvmem.2, hvx⟩
    · intro v hvmem hvpos
      have hvT : npRound v ∈ ((((s.filterMap id).filter
          (fun w => decide (0 < w))).map npRound).toFinset.sort (· ≤ ·)) := by
        rw [Finset.mem_sort (α := ℤ) (· ≤ ·), List.mem_toFinset]
        exact List.mem_map_of_mem _ (List.mem_filter.mpr ⟨hvmem, by simpa using hvpos⟩)
      set vals := (((s.filterMap id).filter (fun w => decide (0 < w))).map npRound).toFinset.sort
        (· ≤ ·) with hvals
      rcases (List.mem_append.mp ((List.take_append_drop 3 vals) ▸ hvT)) with hin | hdrop
      · right
        rw [hout]
        exact hin
      · left
        have hsorted : List.Sorted (· ≤ ·) vals := Finset.sort_sorted _ _
        have hsplit := (List.take_append_drop 3 vals).symm
        rw [hsplit] at hsorted
        exact (List.pairwise_append.mp hsorted).2.2 x hx _ hdrop

/-- C10 witness: from `[10.0, NaN, -3.0]` only the positive finite entry
survives, and it rounds to the used scenario value `10`. -/
theorem C10_scenario_list_witness :
    ∃ v ∈ ([some 10, none, some (-3)] : List (Option ℚ)).filterMap id,
      0 < v ∧ npRound v = 10 := by
  obtain ⟨-, -, -, -, h5⟩ := C10_scenario_list [some 10, none, some (-3)]
  have hfil : (([some 10, none, some (-3)] : List (Option ℚ)).filterMap id).filter
      (fun v => decide (0 < v)) = [10] := by
    norm_num [List.filterMap_cons, List.filter]
  have h10 : npRound (10 : ℚ) = 10 := by
    have := npRound_intCast 10
    simpa using this
  have hval : scenarioList (some [some 10, none, some (-3)]) = [10] := by
    simp only [scenarioList, hfil]
    rw [List.map_singleton, h10]
    simp [Finset.sort_singleton]
  exact (h5 (by rw [hfil]; simp) 10 (by rw [hval]; simp)).1

end Hydro
